import Mathlib

/-!
Verification of the `market_data` trade-simulation engine against its
specification.  The definitions below are a shallow embedding of
`src/services/scanners/backtest_service.py` (`backtest_scanner`),
`src/data_analysis/analysis_service.py` (`fetch_indicators`) and
`src/sma_support_report.py` (`compute_sma_support`).

Modelling conventions:
* prices and indicator values are exact rationals (`ℚ`);
* dates are integers (day ordinals), so SQLite's `date(?, '-10 day')`
  becomes subtraction by 10;
* SQL result sets are lists; `ORDER BY date ASC` is insertion sort on the
  date field; `LIMIT 1` is `List.head?`;
* a SQL `NULL` indicator value (pandas `NaN`) is `Option.none`; price rows
  are modelled with total fields (the spec's `PriceBar` has no null
  fields, so the code's `pd.isna(open)` guard never fires in the model);
* Python's `round(x, 2)` is round-half-to-even on exact rationals.
-/

/- `Rat.add`, `Rat.mul`, `Rat.sub` and `Rat.inv` are `@[irreducible]` in
Batteries, which blocks `decide`/`rfl` evaluation of the model on concrete
inputs; restore semireducibility so witnesses can be checked by kernel
reduction.  (Reducibility attributes do not affect soundness.) -/
set_option allowUnsafeReducibility true in
attribute [semireducible] Rat.add Rat.mul Rat.sub Rat.inv Rat.ofScientific

/-- Round-half-to-even (Python's `round`) to an integer. -/
def roundHalfEven (x : ℚ) : ℤ :=
  let f := ⌊x⌋
  let frac := x - f
  if frac < 1/2 then f
  else if 1/2 < frac then f + 1
  else if f % 2 = 0 then f else f + 1

/-- Python's `round(x, 2)`. -/
def round2 (x : ℚ) : ℚ := (roundHalfEven (x * 100) : ℚ) / 100

/-- SQL `MIN(...)` over a result column: `NULL` on an empty set. -/
def listMin : List ℚ → Option ℚ
  | [] => none
  | x :: xs => some (xs.foldl min x)

/-- One row of `equity_price_data` for a fixed `(symbol_id, timeframe='1d')`. -/
structure PriceBar where
  date : ℤ
  open_ : ℚ
  low : ℚ
  close : ℚ
deriving DecidableEq, Repr

/-- One row of `equity_indicators` for a fixed `(symbol_id, timeframe)`. -/
structure IndRow where
  date : ℤ
  atr_14 : Option ℚ
  rsi_3 : Option ℚ
  rsi_9 : Option ℚ
  rsi_14 : Option ℚ
  ema_rsi_9_3 : Option ℚ
  wma_rsi_9_21 : Option ℚ
  is_final : Bool
deriving DecidableEq, Repr

/-- Ascending-date order on price bars (SQL `ORDER BY date ASC`). -/
def dateAsc (a b : PriceBar) : Prop := a.date ≤ b.date

instance : DecidableRel dateAsc :=
  fun a b => inferInstanceAs (Decidable (a.date ≤ b.date))

instance : IsTotal PriceBar dateAsc := ⟨fun a b => Int.le_total a.date b.date⟩

instance : IsTrans PriceBar dateAsc := ⟨fun _ _ _ h₁ h₂ => le_trans h₁ h₂⟩

/-- `ORDER BY date ASC` on a price result set. -/
def sortAsc (l : List PriceBar) : List PriceBar := l.insertionSort dateAsc

/-- `price_sql` of `backtest_scanner`: the first bar with `date > signal_date`
(`ORDER BY date ASC LIMIT 1`). -/
def buyQuery (prices : List PriceBar) (signalDate : ℤ) : Option PriceBar :=
  (sortAsc (prices.filter (fun b => decide (signalDate < b.date)))).head?

/-- `atr_sql` of `backtest_scanner`: `SELECT atr_14 ... WHERE date = buy_date`;
an empty result set or a `NULL` value is `none`.  Note: no `is_final`
condition appears in the source query. -/
def atrQuery (inds : List IndRow) (buyDate : ℤ) : Option ℚ :=
  match (inds.filter (fun r => decide (r.date = buyDate))).head? with
  | none => none
  | some r => r.atr_14

/-- `swing_sql` of `backtest_scanner`: `MIN(low)` over bars with
`date < buy_date AND date >= date(buy_date, '-10 day')`. -/
def swingQuery (prices : List PriceBar) (buyDate : ℤ) : Option ℚ :=
  listMin ((prices.filter
      (fun b => decide (buyDate - 10 ≤ b.date) && decide (b.date < buyDate))).map
    PriceBar.low)

inductive ExitReason where
  | STOP
  | TARGET
  | EOD
deriving DecidableEq, Repr

/-- The per-signal local variables of the `backtest_scanner` loop, before
the record dictionary (and its rounding) is built. -/
structure Trade where
  buyDate : ℤ
  buyPrice : ℚ
  atr : ℚ
  swingLow : ℚ
  stopLoss : ℚ
  target : ℚ
  exitDate : ℤ
  exitPrice : ℚ
  exitReason : ExitReason
deriving DecidableEq, Repr

/-- The forward-scan loop of `backtest_scanner`: on each bar, the stop-loss
condition is evaluated before the target condition, and the loop breaks on
the first bar that triggers either. -/
def forwardWalk (stopLoss target : ℚ) : List PriceBar → Option (PriceBar × ExitReason)
  | [] => none
  | b :: rest =>
    if b.close ≤ stopLoss then some (b, ExitReason.STOP)
    else if target ≤ b.close then some (b, ExitReason.TARGET)
    else forwardWalk stopLoss target rest

/-- The body of the `backtest_scanner` loop after the buy bar and its ATR
have been resolved: swing low, stop-loss, target, forward scan, and the
end-of-data fallback.  Returns `none` when the trade is skipped
(`exit_price is None`). -/
def resolveExit (prices : List PriceBar) (buyBar : PriceBar) (atr : ℚ) : Option Trade :=
  let buyPrice := buyBar.open_
  let swingLow := (swingQuery prices buyBar.date).getD (buyPrice - atr)
  let stopLoss := min (buyPrice - atr) swingLow
  let target := buyPrice * (105/100)
  let fwd := sortAsc (prices.filter (fun b => decide (buyBar.date ≤ b.date)))
  match forwardWalk stopLoss target fwd with
  | some (b, reason) =>
    some { buyDate := buyBar.date, buyPrice := buyPrice, atr := atr, swingLow := swingLow,
           stopLoss := stopLoss, target := target,
           exitDate := b.date, exitPrice := b.close, exitReason := reason }
  | none =>
    match fwd.getLast? with
    | some lastBar =>
      some { buyDate := buyBar.date, buyPrice := buyPrice, atr := atr, swingLow := swingLow,
             stopLoss := stopLoss, target := target,
             exitDate := lastBar.date, exitPrice := lastBar.close,
             exitReason := ExitReason.EOD }
    | none => none

/-- One iteration of the `backtest_scanner` loop for a single signal:
entry resolution, ATR lookup, then `resolveExit`; each `continue` in the
source is `none` here. -/
def simulateSignal (prices : List PriceBar) (inds : List IndRow) (signalDate : ℤ) :
    Option Trade :=
  match buyQuery prices signalDate with
  | none => none
  | some buyBar =>
    match atrQuery inds buyBar.date with
    | none => none
    | some atr => resolveExit prices buyBar atr

/-- The dictionary appended to `trades` for a non-skipped signal; every
price-like field is rounded to two decimals, `gain_pct` is computed from
the unrounded prices before they are rounded for the record. -/
structure TradeRow where
  symbol : String
  buy_date : ℤ
  buy_price : ℚ
  atr_14 : ℚ
  swing_low : ℚ
  stop_loss_used : ℚ
  exit_date : ℤ
  exit_price : ℚ
  exit_reason : ExitReason
  gain_pct : ℚ
  win : Bool
deriving DecidableEq, Repr

/-- Builds the trade dictionary from the loop's local variables
(`round(buy_price, 2)`, ..., `gain_pct = round((exit-buy)/buy*100, 2)`,
`win = gain_pct > 0`). -/
def mkRecord (symbol : String) (t : Trade) : TradeRow :=
  let gain := round2 ((t.exitPrice - t.buyPrice) / t.buyPrice * 100)
  { symbol := symbol
    buy_date := t.buyDate
    buy_price := round2 t.buyPrice
    atr_14 := round2 t.atr
    swing_low := round2 t.swingLow
    stop_loss_used := round2 t.stopLoss
    exit_date := t.exitDate
    exit_price := round2 t.exitPrice
    exit_reason := t.exitReason
    gain_pct := gain
    win := decide (0 < gain) }

/-- One row of the scanner CSV (`symbol_id`, `symbol`, `date`). -/
structure Sig where
  symbol_id : ℕ
  symbol : String
  date : ℤ
deriving DecidableEq, Repr

/-- The read-only database snapshot a `backtest_scanner` run reads from:
daily price rows and daily indicator rows per `symbol_id`. -/
structure DB where
  prices : ℕ → List PriceBar
  inds : ℕ → List IndRow

/-- The main loop of `backtest_scanner`: one iteration per CSV row, each
`continue` dropping the signal without a record. -/
def backtest (db : DB) (signals : List Sig) : List TradeRow :=
  signals.filterMap fun s =>
    (simulateSignal (db.prices s.symbol_id) (db.inds s.symbol_id) s.date).map
      (mkRecord s.symbol)

/-- `(1 + gain_pct/100).cumprod()` starting from accumulator `acc`. -/
def cumprodAux (acc : ℚ) : List ℚ → List ℚ
  | [] => []
  | x :: xs => (acc * x) :: cumprodAux (acc * x) xs

/-- `cumulative = (1 + result_df['gain_pct']/100).cumprod()`. -/
def cumulative (gains : List ℚ) : List ℚ :=
  cumprodAux 1 (gains.map (fun g => 1 + g / 100))

/-- `cummax()` continuation with running maximum `m`. -/
def cummaxAux (m : ℚ) : List ℚ → List ℚ
  | [] => []
  | x :: xs => max m x :: cummaxAux (max m x) xs

/-- `running_max = cumulative.cummax()`. -/
def runningMax : List ℚ → List ℚ
  | [] => []
  | x :: xs => x :: cummaxAux x xs

/-- `drawdown = (cumulative - running_max) / running_max * 100`. -/
def drawdown (gains : List ℚ) : List ℚ :=
  List.zipWith (fun c m => (c - m) / m * 100) (cumulative gains)
    (runningMax (cumulative gains))

/-- `max_drawdown = drawdown.min()`. -/
def maxDrawdown (gains : List ℚ) : Option ℚ := listMin (drawdown gains)

/-- Descending-date order on indicator rows (`ORDER BY date DESC`). -/
def dateDesc (a b : IndRow) : Prop := b.date ≤ a.date

instance : DecidableRel dateDesc :=
  fun a b => inferInstanceAs (Decidable (b.date ≤ a.date))

instance : IsTotal IndRow dateDesc := ⟨fun a b => Int.le_total b.date a.date⟩

instance : IsTrans IndRow dateDesc := ⟨fun _ _ _ h₁ h₂ => le_trans h₂ h₁⟩

/-- `fetch_indicators` of `analysis_service.py`: the latest indicator row
with `date <= signal_date AND is_final = 1` (`ORDER BY date DESC LIMIT 1`). -/
def fetch_indicators (rows : List IndRow) (signalDate : ℤ) : Option IndRow :=
  ((rows.filter (fun r => decide (r.date ≤ signalDate) && r.is_final)).insertionSort
    dateDesc).head?

/-- A provider failure (`pd.read_sql` raising: unreachable database or
malformed rows) — the spec's DataSourceError. -/
inductive DataErr where
  | err
deriving DecidableEq, Repr

/-- The price/indicator provider as seen by `backtest_scanner`, with each
of its four queries allowed to raise. -/
structure FallibleDB where
  priceQ : ℕ → ℤ → Except DataErr (Option PriceBar)
  atrQ : ℕ → ℤ → Except DataErr (Option ℚ)
  swingQ : ℕ → ℤ → Except DataErr (Option ℚ)
  forwardQ : ℕ → ℤ → Except DataErr (List PriceBar)

/-- One loop iteration of `backtest_scanner` against a fallible provider;
an exception anywhere propagates out of the iteration. -/
def simulateSignalE (db : FallibleDB) (s : Sig) : Except DataErr (Option TradeRow) := do
  let buyRes ← db.priceQ s.symbol_id s.date
  match buyRes with
  | none => pure none
  | some buyBar =>
    let atrRes ← db.atrQ s.symbol_id buyBar.date
    match atrRes with
    | none => pure none
    | some atr =>
      let swingRes ← db.swingQ s.symbol_id buyBar.date
      let buyPrice := buyBar.open_
      let swingLow := swingRes.getD (buyPrice - atr)
      let stopLoss := min (buyPrice - atr) swingLow
      let target := buyPrice * (105/100)
      let fwd ← db.forwardQ s.symbol_id buyBar.date
      match forwardWalk stopLoss target fwd with
      | some (b, reason) =>
        pure (some (mkRecord s.symbol
          { buyDate := buyBar.date, buyPrice := buyPrice, atr := atr, swingLow := swingLow,
            stopLoss := stopLoss, target := target,
            exitDate := b.date, exitPrice := b.close, exitReason := reason }))
      | none =>
        match fwd.getLast? with
        | some lastBar =>
          pure (some (mkRecord s.symbol
            { buyDate := buyBar.date, buyPrice := buyPrice, atr := atr, swingLow := swingLow,
              stopLoss := stopLoss, target := target,
              exitDate := lastBar.date, exitPrice := lastBar.close,
              exitReason := ExitReason.EOD }))
        | none => pure none

/-- The `for _, row in df.iterrows()` loop with a fallible provider: the
first exception aborts the remaining iterations. -/
def runLoopE (db : FallibleDB) : List Sig → Except DataErr (List TradeRow)
  | [] => pure []
  | s :: rest => do
    let t ← simulateSignalE db s
    let ts ← runLoopE db rest
    match t with
    | none => pure ts
    | some tr => pure (tr :: ts)

/-- Control-flow model of `backtest_scanner`'s resource handling.  The
connection is acquired before the loop; `close_db_connection(conn)` is the
next statement after the loop, inside the `try` block, and the function
has an `except` handler but no `finally`.  The boolean records whether
`close_db_connection` was reached on that control path. -/
def backtestRunE (db : FallibleDB) (signals : List Sig) : Bool × Option (List TradeRow) :=
  match runLoopE db signals with
  | Except.ok trades => (true, some trades)
  | Except.error _ => (false, none)

/-- A pandas DataFrame with the columns `compute_sma_support` touches:
`date`, `close`, and any further (possibly null-valued) columns keyed by
name in insertion order. -/
structure DataFrame where
  date : List ℤ
  close : List ℚ
  cols : List (String × List (Option ℚ))
deriving DecidableEq, Repr

/-- Column lookup by name. -/
def lookupCol {α : Type} : List (String × α) → String → Option α
  | [], _ => none
  | (k, w) :: rest, name => if k = name then some w else lookupCol rest name

/-- `df[name] = v` / `results[name] = v`: overwrite in place if the key
exists, else append it. -/
def upsert {α : Type} : List (String × α) → String → α → List (String × α)
  | [], name, v => [(name, v)]
  | (k, w) :: rest, name, v =>
    if k = name then (k, v) :: rest else (k, w) :: upsert rest name v

/-- `df[name] = v` on the extra columns of a frame. -/
def setCol (df : DataFrame) (name : String) (v : List (Option ℚ)) : DataFrame :=
  { df with cols := upsert df.cols name v }

/-- `series.rolling(p).mean()`: entry `i` is the mean of the window ending
at `i` once `p` observations are available, `NaN` before that. -/
def rollingMean (p : ℕ) (xs : List ℚ) : List (Option ℚ) :=
  (List.range xs.length).map fun i =>
    if p ≤ i + 1 then some (((xs.take (i + 1)).drop (i + 1 - p)).sum / (p : ℚ)) else none

/-- The column name `f'SMA_{period}'`. -/
def smaColName (p : ℕ) : String := "SMA_" ++ toString p

/-- The inner support-counting loop of `compute_sma_support`:
`for i in range(1, len(df)-1)`, skip `NaN` SMA values, count the rows
where the close is within tolerance of the SMA and the next close is
higher. -/
def countSupport (close : List ℚ) (col : List (Option ℚ)) (tolerance_pct : ℚ) : ℕ :=
  ((List.range' 1 (close.length - 2)).filter fun i =>
    match col.getD i none with
    | none => false
    | some smaVal =>
      decide (|close.getD i 0 - smaVal| / smaVal ≤ tolerance_pct) &&
      decide (close.getD i 0 < close.getD (i + 1) 0)).length

/-- One iteration of the `for period in sma_periods` loop: assign the
rolling-mean column `SMA_{period}` into the caller's frame (mutation
modelled by threading the frame) and record the support count in the
results dictionary. -/
def smaStep (tolerance_pct : ℚ) (acc : DataFrame × List (String × ℕ)) (p : ℕ) :
    DataFrame × List (String × ℕ) :=
  let col := rollingMean p acc.1.close
  (setCol acc.1 (smaColName p) col,
   upsert acc.2 (smaColName p) (countSupport acc.1.close col tolerance_pct))

/-- `compute_sma_support(df, sma_periods, tolerance_pct)`: runs the loop
over all requested periods; returns the mutated frame and the results
dictionary. -/
def compute_sma_support (df : DataFrame) (sma_periods : List ℕ) (tolerance_pct : ℚ) :
    DataFrame × List (String × ℕ) :=
  sma_periods.foldl (smaStep tolerance_pct) (df, [])

/-- SQL-style `MAX` over a list of week keys. -/
def listMaxInt : List ℤ → Option ℤ
  | [] => none
  | x :: xs => some (xs.foldl max x)

/-- A processed weekly cohort of the capital-compounding backtest. -/
structure WeeklyCohort where
  week_start : ℤ
  capital_before : ℚ
  pnl : ℚ
  capital_after : ℚ
deriving DecidableEq, Repr

/-- Modelled from the spec: the per-cohort pnl of `backtest_all_scanners`
(the CohortAllocator), whose implementation is not under `src/` (only its
callers in `scanner_play.py`, `scanner_template.py` and
`scanner_weekly.py` are).  Capital is split equally over the cohort's
valid trades (`capital_per_trade = capital_before / count`) and
`pnl = Σ (exit - entry)/entry * capital_per_trade`; a cohort with zero
valid trades has `pnl = 0`. -/
def cohortPnl (capital_before : ℚ) (rets : List ℚ) : ℚ :=
  if rets.isEmpty then 0 else rets.sum * (capital_before / (rets.length : ℚ))

/-- Modelled from the spec: the unrounded per-trade returns of a cohort's
non-skipped trades, produced by running the trade simulator on each of the
cohort's signals. -/
def cohortReturns (db : DB) (sigs : List Sig) : List ℚ :=
  (sigs.filterMap fun s =>
    simulateSignal (db.prices s.symbol_id) (db.inds s.symbol_id) s.date).map
    fun t => (t.exitPrice - t.buyPrice) / t.buyPrice

/-- Ascending order on `(week_start, signals)` cohorts. -/
def weekAsc (a b : ℤ × List Sig) : Prop := a.1 ≤ b.1

instance : DecidableRel weekAsc :=
  fun a b => inferInstanceAs (Decidable (a.1 ≤ b.1))

instance : IsTotal (ℤ × List Sig) weekAsc := ⟨fun a b => Int.le_total a.1 b.1⟩

instance : IsTrans (ℤ × List Sig) weekAsc := ⟨fun _ _ _ h₁ h₂ => le_trans h₁ h₂⟩

/-- Modelled from the spec: the sequential capital fold of the
CohortAllocator — each processed cohort starts from the running capital
and ends at `capital_before + pnl`, which seeds the next cohort. -/
def allocGo (db : DB) (capital : ℚ) : List (ℤ × List Sig) → List WeeklyCohort
  | [] => []
  | (w, sigs) :: rest =>
    let pnl := cohortPnl capital (cohortReturns db sigs)
    { week_start := w, capital_before := capital, pnl := pnl,
      capital_after := capital + pnl } :: allocGo db (capital + pnl) rest

/-- Modelled from the spec: `backtest_all_scanners`' CohortAllocator
(`allocate(signals_by_week, startingCapital, config)`), absent from
`src/`.  Cohorts are processed strictly in ascending `week_start` order,
and the cohort whose `week_start` equals the maximum observed week is
skipped (defensive exclusion of the possibly-incomplete trailing week). -/
def allocate (db : DB) (weeks : List (ℤ × List Sig)) (startingCapital : ℚ) :
    List WeeklyCohort :=
  match listMaxInt (weeks.map Prod.fst) with
  | none => []
  | some maxW =>
    allocGo db startingCapital
      ((weeks.insertionSort weekAsc).filter fun c => decide (c.1 ≠ maxW))

/-! ### Helper lemmas -/

/-- The `break`-on-first-trigger loop is `List.find?` over the combined
trigger, with the stop condition deciding the reason. -/
theorem forwardWalk_eq_find (stopLoss target : ℚ) (l : List PriceBar) :
    forwardWalk stopLoss target l =
      (l.find? fun b => decide (b.close ≤ stopLoss) || decide (target ≤ b.close)).map
        fun b => (b, if b.close ≤ stopLoss then ExitReason.STOP else ExitReason.TARGET) := by
  induction l with
  | nil => rfl
  | cons b rest ih =>
    by_cases h1 : b.close ≤ stopLoss
    · simp [forwardWalk, List.find?, h1]
    · by_cases h2 : target ≤ b.close
      · simp [forwardWalk, List.find?, h1, h2]
      · simp [forwardWalk, List.find?, h1, h2, ih]

/-- Inversion principle for a produced (non-skipped) trade: how each field
relates to the buy bar, the ATR row and the forward window. -/
theorem simulateSignal_some (prices : List PriceBar) (inds : List IndRow) (sd : ℤ)
    (t : Trade) (h : simulateSignal prices inds sd = some t) :
    ∃ buyBar, buyQuery prices sd = some buyBar ∧
      atrQuery inds buyBar.date = some t.atr ∧
      t.buyDate = buyBar.date ∧ t.buyPrice = buyBar.open_ ∧
      t.swingLow = (swingQuery prices buyBar.date).getD (buyBar.open_ - t.atr) ∧
      t.stopLoss = min (buyBar.open_ - t.atr) t.swingLow ∧
      t.target = buyBar.open_ * (105/100) ∧
      ((∃ b reason,
          forwardWalk t.stopLoss t.target
              (sortAsc (prices.filter fun x => decide (buyBar.date ≤ x.date))) =
            some (b, reason) ∧
          t.exitDate = b.date ∧ t.exitPrice = b.close ∧ t.exitReason = reason) ∨
        (forwardWalk t.stopLoss t.target
            (sortAsc (prices.filter fun x => decide (buyBar.date ≤ x.date))) = none ∧
          ∃ lb, (sortAsc (prices.filter fun x => decide (buyBar.date ≤ x.date))).getLast? =
              some lb ∧
            t.exitDate = lb.date ∧ t.exitPrice = lb.close ∧
            t.exitReason = ExitReason.EOD)) := by
  unfold simulateSignal at h
  cases hb : buyQuery prices sd with
  | none => rw [hb] at h; exact absurd h (by simp)
  | some buyBar =>
    rw [hb] at h
    dsimp only at h
    cases ha : atrQuery inds buyBar.date with
    | none => rw [ha] at h; exact absurd h (by simp)
    | some atr =>
      rw [ha] at h
      dsimp only at h
      unfold resolveExit at h
      dsimp only at h
      cases hw : forwardWalk (min (buyBar.open_ - atr)
          ((swingQuery prices buyBar.date).getD (buyBar.open_ - atr)))
          (buyBar.open_ * (105/100))
          (sortAsc (prices.filter fun x => decide (buyBar.date ≤ x.date))) with
      | some pr =>
        obtain ⟨b, reason⟩ := pr
        rw [hw] at h
        simp only [Option.some.injEq] at h
        subst h
        refine ⟨buyBar, rfl, ha, rfl, rfl, rfl, rfl, rfl, Or.inl ⟨b, reason, hw, rfl, rfl, rfl⟩⟩
      | none =>
        rw [hw] at h
        cases hl : (sortAsc (prices.filter fun x => decide (buyBar.date ≤ x.date))).getLast? with
        | none => rw [hl] at h; exact absurd h (by simp)
        | some lastBar =>
          rw [hl] at h
          simp only [Option.some.injEq] at h
          subst h
          exact ⟨buyBar, rfl, ha, rfl, rfl, rfl, rfl, rfl,
            Or.inr ⟨hw, lastBar, hl, rfl, rfl, rfl⟩⟩

/-! ### C1: exit resolution -/

/-- C1: for every non-skipped trade, the forward walk iterates the bars
with `date >= entry_date` in ascending date order; the exit is taken at
the first bar triggering `close <= stop_loss` (STOP, exit at that close)
or — stop evaluated first, so STOP wins on a bar where both hold —
`close >= target` (TARGET); if no bar triggers, the exit is the last
available bar's close with reason EOD. -/
theorem exit_resolution_first_trigger (prices : List PriceBar) (inds : List IndRow)
    (sd : ℤ) (t : Trade) (h : simulateSignal prices inds sd = some t) :
    List.Sorted dateAsc (sortAsc (prices.filter fun b => decide (t.buyDate ≤ b.date))) ∧
    match (sortAsc (prices.filter fun b => decide (t.buyDate ≤ b.date))).find?
        (fun b => decide (b.close ≤ t.stopLoss) || decide (t.target ≤ b.close)) with
    | some b =>
        t.exitDate = b.date ∧ t.exitPrice = b.close ∧
        t.exitReason = (if b.close ≤ t.stopLoss then ExitReason.STOP else ExitReason.TARGET)
    | none =>
        t.exitReason = ExitReason.EOD ∧
        ∃ lb, (sortAsc (prices.filter fun b => decide (t.buyDate ≤ b.date))).getLast? =
            some lb ∧
          t.exitDate = lb.date ∧ t.exitPrice = lb.close := by
  obtain ⟨buyBar, hb, ha, hbd, hbp, hsw, hsl, htg, hcase⟩ :=
    simulateSignal_some prices inds sd t h
  rw [hbd]
  refine ⟨List.sorted_insertionSort dateAsc _, ?_⟩
  rcases hcase with ⟨b, reason, hw, h1, h2, h3⟩ | ⟨hw, lb, hl, h1, h2, h3⟩
  · rw [forwardWalk_eq_find] at hw
    obtain ⟨b', hfind, hfb⟩ := Option.map_eq_some'.mp hw
    have hbeq : b' = b := congrArg Prod.fst hfb
    have hreq : (if b'.close ≤ t.stopLoss then ExitReason.STOP else ExitReason.TARGET) =
        reason := congrArg Prod.snd hfb
    subst hbeq
    rw [hfind]
    exact ⟨h1, h2, h3.trans hreq.symm⟩
  · rw [forwardWalk_eq_find] at hw
    rw [Option.map_eq_none'.mp hw]
    exact ⟨h3, lb, hl, h1, h2⟩

/-- Witness data: the worked example of spec §8 — signal on day 10, entry
bar day 13 with open 100, prior swing low 92, forward closes 104 then 106. -/
def Pw : List PriceBar := [⟨3, 95, 92, 95⟩, ⟨13, 100, 99, 104⟩, ⟨15, 105, 104, 106⟩]

/-- Witness data: ATR(14) of 5 on the entry date. -/
def Iw : List IndRow := [⟨13, some 5, none, none, none, none, none, true⟩]

/-- The trade the simulator produces on the witness data: stop 92,
target 105, TARGET exit at close 106 on day 15. -/
def Tw : Trade := ⟨13, 100, 5, 92, 92, 105, 15, 106, ExitReason.TARGET⟩

theorem exit_resolution_first_trigger_witness :
    simulateSignal Pw Iw 10 = some Tw ∧
    (List.Sorted dateAsc (sortAsc (Pw.filter fun b => decide (Tw.buyDate ≤ b.date))) ∧
    match (sortAsc (Pw.filter fun b => decide (Tw.buyDate ≤ b.date))).find?
        (fun b => decide (b.close ≤ Tw.stopLoss) || decide (Tw.target ≤ b.close)) with
    | some b =>
        Tw.exitDate = b.date ∧ Tw.exitPrice = b.close ∧
        Tw.exitReason = (if b.close ≤ Tw.stopLoss then ExitReason.STOP else ExitReason.TARGET)
    | none =>
        Tw.exitReason = ExitReason.EOD ∧
        ∃ lb, (sortAsc (Pw.filter fun b => decide (Tw.buyDate ≤ b.date))).getLast? =
            some lb ∧
          Tw.exitDate = lb.date ∧ Tw.exitPrice = lb.close) :=
  ⟨by decide, exit_resolution_first_trigger Pw Iw 10 Tw (by decide)⟩

/-! ### C2: entry resolution -/

/-- C2: a signal with at least one bar strictly after `signal_date` enters
at the earliest such bar — `entry_date` is that bar's date (hence
`entry_date > signal_date`) and `entry_price` is exactly that bar's open;
a signal with no such bar is skipped (no trade, no error). -/
theorem entry_resolution (prices : List PriceBar) (inds : List IndRow) (sd : ℤ) :
    (prices.filter (fun b => decide (sd < b.date)) = [] →
      simulateSignal prices inds sd = none) ∧
    ∀ t, simulateSignal prices inds sd = some t →
      sd < t.buyDate ∧
      (∃ b ∈ prices.filter (fun b => decide (sd < b.date)),
        b.date = t.buyDate ∧ b.open_ = t.buyPrice) ∧
      ∀ b ∈ prices.filter (fun b => decide (sd < b.date)), t.buyDate ≤ b.date := by
  constructor
  · intro he
    have hq : buyQuery prices sd = none := by
      unfold buyQuery sortAsc
      rw [he]
      rfl
    unfold simulateSignal
    rw [hq]
  · intro t h
    obtain ⟨buyBar, hb, _, hbd, hbp, _, _, _, _⟩ := simulateSignal_some prices inds sd t h
    have hperm := List.perm_insertionSort dateAsc (prices.filter fun b => decide (sd < b.date))
    have hsorted := List.sorted_insertionSort dateAsc
      (prices.filter fun b => decide (sd < b.date))
    unfold buyQuery at hb
    cases hs : sortAsc (prices.filter fun b => decide (sd < b.date)) with
    | nil => rw [hs] at hb; exact absurd hb (by simp)
    | cons x xs =>
      rw [hs] at hb
      have hx : x = buyBar := by simpa using hb
      subst hx
      have hmem : x ∈ prices.filter fun b => decide (sd < b.date) := by
        refine hperm.mem_iff.mp ?_
        rw [show sortAsc (prices.filter fun b => decide (sd < b.date)) =
          List.insertionSort dateAsc (prices.filter fun b => decide (sd < b.date)) from rfl] at hs
        rw [hs]
        exact List.mem_cons_self x xs
      refine ⟨?_, ⟨x, hmem, hbd.symm, hbp.symm⟩, ?_⟩
      · rw [hbd]
        exact of_decide_eq_true (List.mem_filter.mp hmem).2
      · intro b hbmem
        have hbmem' : b ∈ x :: xs := by
          rw [← hs]
          exact hperm.symm.mem_iff.mp hbmem
        rw [hbd]
        rcases List.mem_cons.mp hbmem' with hbx | hbxs
        · rw [hbx]
        · rw [show sortAsc (prices.filter fun b => decide (sd < b.date)) =
            List.insertionSort dateAsc (prices.filter fun b => decide (sd < b.date)) from rfl]
            at hs
          rw [hs] at hsorted
          exact (List.sorted_cons.mp hsorted).1 b hbxs

theorem entry_resolution_witness :
    simulateSignal Pw Iw 10 = some Tw ∧
    (10 < Tw.buyDate ∧
      (∃ b ∈ Pw.filter (fun b => decide ((10:ℤ) < b.date)),
        b.date = Tw.buyDate ∧ b.open_ = Tw.buyPrice) ∧
      ∀ b ∈ Pw.filter (fun b => decide ((10:ℤ) < b.date)), Tw.buyDate ≤ b.date) :=
  ⟨by decide, (entry_resolution Pw Iw 10).2 Tw (by decide)⟩

/-! ### C3: stop-loss construction -/

/-- Counterexample data for the swing-low window: an old bar 20 days
before the entry with the globally lowest low (50), five bars in the week
before entry with low 90, and the entry bar on day 1. -/
def P3 : List PriceBar :=
  [⟨-20, 60, 50, 60⟩, ⟨-5, 100, 90, 100⟩, ⟨-4, 100, 90, 100⟩, ⟨-3, 100, 90, 100⟩,
   ⟨-2, 100, 90, 100⟩, ⟨-1, 100, 90, 100⟩, ⟨1, 100, 99, 100⟩]

/-- ATR(14) of 5 on the entry date of the swing-low counterexample. -/
def I3 : List IndRow := [⟨1, some 5, none, none, none, none, none, true⟩]

/-- C3 counterexample: the code computes the swing low over the 10
calendar days before the entry date, not over the preceding 10 bars.
Here the 10 preceding bars (all 6 of them) have minimum low 50, so the
claim predicts `stop_loss = min(100 - 5, 50) = 50`; the produced trade
has `stop_loss = 90` — the minimum low inside the 10-day window only. -/
theorem swing_low_window_counterexample :
    (simulateSignal P3 I3 0).map Trade.stopLoss = some 90 ∧
    (simulateSignal P3 I3 0).map Trade.buyPrice = some 100 ∧
    (simulateSignal P3 I3 0).map Trade.atr = some 5 ∧
    listMin ((((P3.filter fun b => decide (b.date < 1)).insertionSort
        dateAsc).reverse.take 10).map PriceBar.low) = some 50 ∧
    min ((100:ℚ) - 5) 50 ≠ 90 := by decide

/-- C3 (amended): for every non-skipped trade,
`stop_loss = min(entry_price - ATR, swing_low)` where `swing_low` is the
minimum low over the bars within the 10 calendar days strictly preceding
`entry_date` (`entry_date - 10 <= date < entry_date`), falling back to
`entry_price - ATR` when that window holds no bar. -/
theorem stop_loss_construction (prices : List PriceBar) (inds : List IndRow) (sd : ℤ)
    (t : Trade) (h : simulateSignal prices inds sd = some t) :
    t.stopLoss = min (t.buyPrice - t.atr) t.swingLow ∧
    t.swingLow = (listMin ((prices.filter fun b =>
        decide (t.buyDate - 10 ≤ b.date) && decide (b.date < t.buyDate)).map
      PriceBar.low)).getD (t.buyPrice - t.atr) := by
  obtain ⟨buyBar, _, _, hbd, hbp, hsw, hsl, _, _⟩ := simulateSignal_some prices inds sd t h
  rw [hbd, hbp]
  exact ⟨hsl, hsw⟩

theorem stop_loss_construction_witness :
    simulateSignal Pw Iw 10 = some Tw ∧
    (Tw.stopLoss = min (Tw.buyPrice - Tw.atr) Tw.swingLow ∧
    Tw.swingLow = (listMin ((Pw.filter fun b =>
        decide (Tw.buyDate - 10 ≤ b.date) && decide (b.date < Tw.buyDate)).map
      PriceBar.low)).getD (Tw.buyPrice - Tw.atr)) :=
  ⟨by decide, stop_loss_construction Pw Iw 10 Tw (by decide)⟩

/-! ### C4: gain_pct and win -/

/-- Counterexample data for the gain/rounding order: entry open 3, single
forward bar closing at 3.004 (EOD exit). -/
def P4 : List PriceBar := [⟨1, 3, 3, 3004/1000⟩]

/-- ATR(14) of 1 on the entry date of the gain counterexample. -/
def I4 : List IndRow := [⟨1, some 1, none, none, none, none, none, true⟩]

/-- C4 counterexample: `gain_pct` is computed from the unrounded prices
(`round(0.004/3*100, 2) = 0.13`) before `exit_price` and `buy_price` are
rounded for the record (both to `3.0`); recomputing the claimed formula
from the recorded fields yields `0`, not the recorded `0.13`. -/
theorem gain_pct_recorded_fields_counterexample :
    ((simulateSignal P4 I4 0).map (mkRecord "X")).map TradeRow.gain_pct = some (13/100) ∧
    ((simulateSignal P4 I4 0).map (mkRecord "X")).map
        (fun r => round2 ((r.exit_price - r.buy_price) / r.buy_price * 100)) = some 0 ∧
    ((13:ℚ)/100) ≠ 0 := by decide

/-- C4 (amended): every recorded trade's `gain_pct` equals
`round((exit_price - entry_price)/entry_price*100, 2)` computed from the
exact (pre-rounding) exit and entry prices of the simulated trade — the
recorded price fields being those values rounded to two decimals — and
the recorded `win` flag equals `gain_pct > 0`. -/
theorem gain_pct_and_win_from_exact_prices (db : DB) (sigs : List Sig) (r : TradeRow)
    (h : r ∈ backtest db sigs) :
    r.win = decide (0 < r.gain_pct) ∧
    ∃ s ∈ sigs, ∃ t, simulateSignal (db.prices s.symbol_id) (db.inds s.symbol_id) s.date =
        some t ∧
      r = mkRecord s.symbol t ∧
      r.gain_pct = round2 ((t.exitPrice - t.buyPrice) / t.buyPrice * 100) ∧
      r.exit_price = round2 t.exitPrice ∧ r.buy_price = round2 t.buyPrice := by
  obtain ⟨s, hs, hmap⟩ := List.mem_filterMap.mp h
  obtain ⟨t, hsim, hmk⟩ := Option.map_eq_some'.mp hmap
  subst hmk
  exact ⟨rfl, s, hs, t, hsim, rfl, rfl, rfl, rfl⟩

/-- The witness database: one symbol whose price and indicator series are
the spec §8 example. -/
def DBw : DB := ⟨fun _ => Pw, fun _ => Iw⟩

/-- The witness signal row. -/
def Sw : Sig := ⟨7, "SYM", 10⟩

theorem gain_pct_and_win_from_exact_prices_witness :
    mkRecord "SYM" Tw ∈ backtest DBw [Sw] ∧
    ((mkRecord "SYM" Tw).win = decide (0 < (mkRecord "SYM" Tw).gain_pct) ∧
     ∃ s ∈ [Sw], ∃ t, simulateSignal (DBw.prices s.symbol_id) (DBw.inds s.symbol_id)
         s.date = some t ∧
       mkRecord "SYM" Tw = mkRecord s.symbol t ∧
       (mkRecord "SYM" Tw).gain_pct = round2 ((t.exitPrice - t.buyPrice) / t.buyPrice * 100) ∧
       (mkRecord "SYM" Tw).exit_price = round2 t.exitPrice ∧
       (mkRecord "SYM" Tw).buy_price = round2 t.buyPrice) :=
  ⟨by decide, gain_pct_and_win_from_exact_prices DBw [Sw] (mkRecord "SYM" Tw) (by decide)⟩

/-! ### C6: missing ATR handling -/

/-- Counterexample database: symbol 1 has a forward bar but no indicator
row (ATR missing); symbol 2 has both and yields a trade. -/
def DB6 : DB :=
  ⟨fun i => if i = 1 then [⟨1, 100, 100, 100⟩] else [⟨1, 10, 10, 10⟩],
   fun i => if i = 1 then [] else [⟨1, some 1, none, none, none, none, none, true⟩]⟩

/-- Signal for the ATR-less symbol. -/
def S61 : Sig := ⟨1, "A", 0⟩

/-- Signal for the fully-populated symbol. -/
def S62 : Sig := ⟨2, "B", 0⟩

/-- C6 counterexample: signal A resolves an entry bar but its entry-date
ATR is absent; the run's output contains no record of any kind for A —
no SKIPPED trade, no reason — while processing continued to signal B. -/
theorem atr_skip_silent_counterexample :
    (backtest DB6 [S61, S62]).map TradeRow.symbol = ["B"] ∧
    buyQuery (DB6.prices 1) 0 = some ⟨1, 100, 100, 100⟩ ∧
    atrQuery (DB6.inds 1) 1 = none := by decide

/-- C6 (amended): a signal whose entry-date ATR(14) is missing
contributes no trade record at all (it is dropped silently, with no
SKIPPED row or reason), hence it is excluded from aggregation and trade
counts, and the run continues with the remaining signals unchanged. -/
theorem atr_missing_skips_without_record (db : DB) (pre post : List Sig) (s : Sig)
    (h : ∀ b, buyQuery (db.prices s.symbol_id) s.date = some b →
      atrQuery (db.inds s.symbol_id) b.date = none) :
    backtest db (pre ++ s :: post) = backtest db pre ++ backtest db post := by
  have hnone : simulateSignal (db.prices s.symbol_id) (db.inds s.symbol_id) s.date =
      none := by
    unfold simulateSignal
    cases hb : buyQuery (db.prices s.symbol_id) s.date with
    | none => rfl
    | some b => dsimp only; rw [h b hb]
  have hf : (simulateSignal (db.prices s.symbol_id) (db.inds s.symbol_id) s.date).map
      (mkRecord s.symbol) = none := by rw [hnone]; rfl
  unfold backtest
  simp only [List.filterMap_append, List.filterMap_cons, hf]

theorem atr_missing_skips_without_record_witness :
    backtest DB6 ([S62] ++ S61 :: []) = backtest DB6 [S62] ++ backtest DB6 [] := by
  apply atr_missing_skips_without_record
  intro b hb
  have h1 : buyQuery (DB6.prices S61.symbol_id) S61.date = some ⟨1, 100, 100, 100⟩ := by
    decide
  rw [h1] at hb
  cases hb
  decide

/-! ### C7: max drawdown -/

/-- A left fold of `min` never exceeds its initial value. -/
theorem foldl_min_le_init (l : List ℚ) (x : ℚ) : l.foldl min x ≤ x := by
  induction l generalizing x with
  | nil => exact le_refl x
  | cons y ys ih => exact le_trans (ih (min x y)) (min_le_left x y)

/-- C7: for every non-empty list of trade gains, the summary's
`max_drawdown` — the minimum of `(cum_i - running_max_i)/running_max_i *
100` over the cumulative growth curve — exists and is `<= 0` (the first
drawdown entry is always `0`, and the minimum cannot exceed it). -/
theorem max_drawdown_nonpos (gains : List ℚ) (h : gains ≠ []) :
    ∃ d, maxDrawdown gains = some d ∧ d ≤ 0 := by
  cases gains with
  | nil => exact absurd rfl h
  | cons g gs =>
    have hd : maxDrawdown (g :: gs) = some
        ((List.zipWith (fun c m => (c - m) / m * 100)
            (cumprodAux (1 * (1 + g / 100)) (gs.map fun x => 1 + x / 100))
            (cummaxAux (1 * (1 + g / 100))
              (cumprodAux (1 * (1 + g / 100)) (gs.map fun x => 1 + x / 100)))).foldl min
          ((1 * (1 + g / 100) - 1 * (1 + g / 100)) / (1 * (1 + g / 100)) * 100)) := rfl
    refine ⟨_, hd, ?_⟩
    have hz : (1 * (1 + g / 100) - 1 * (1 + g / 100)) / (1 * (1 + g / 100)) * 100 = 0 := by
      rw [sub_self, zero_div, zero_mul]
    calc (List.zipWith (fun c m => (c - m) / m * 100)
            (cumprodAux (1 * (1 + g / 100)) (gs.map fun x => 1 + x / 100))
            (cummaxAux (1 * (1 + g / 100))
              (cumprodAux (1 * (1 + g / 100)) (gs.map fun x => 1 + x / 100)))).foldl min
          ((1 * (1 + g / 100) - 1 * (1 + g / 100)) / (1 * (1 + g / 100)) * 100) ≤
        (1 * (1 + g / 100) - 1 * (1 + g / 100)) / (1 * (1 + g / 100)) * 100 :=
          foldl_min_le_init _ _
      _ = 0 := hz

theorem max_drawdown_nonpos_witness :
    ([6, -3] : List ℚ) ≠ [] ∧ ∃ d, maxDrawdown [6, -3] = some d ∧ d ≤ 0 :=
  ⟨by decide, max_drawdown_nonpos [6, -3] (by decide)⟩

/-! ### C8: resource release -/

/-- A provider whose forward-window query raises mid-run (after the
connection was acquired and earlier queries succeeded). -/
def DB8 : FallibleDB :=
  ⟨fun _ _ => Except.ok (some ⟨1, 100, 100, 100⟩),
   fun _ _ => Except.ok (some 5),
   fun _ _ => Except.ok none,
   fun _ _ => Except.error DataErr.err⟩

/-- The same provider with the forward query repaired. -/
def DB8ok : FallibleDB :=
  ⟨fun _ _ => Except.ok (some ⟨1, 100, 100, 100⟩),
   fun _ _ => Except.ok (some 5),
   fun _ _ => Except.ok none,
   fun _ _ => Except.ok [⟨1, 100, 100, 100⟩]⟩

/-- C8 (evaluation at the failing input): when the price provider raises
mid-run, `backtest_scanner`'s `except` handler is reached without ever
executing `close_db_connection` (there is no `finally`), so the
connection handle acquired at the start of the run is not released —
while the same run with a healthy provider does reach the close call. -/
theorem connection_leak_on_provider_failure :
    backtestRunE DB8 [⟨1, "A", 0⟩] = (false, none) ∧
    (backtestRunE DB8ok [⟨1, "A", 0⟩]).1 = true := by decide

/-! ### C9: is_final eligibility -/

/-- C9 (amended): the RSI-family lookup `fetch_indicators` only ever
returns rows with `is_final = true`, while the ATR(14) fetch of
`backtest_scanner` applies no `is_final` condition at all — its result is
unchanged under arbitrary rewriting of the `is_final` flags. -/
theorem indicator_final_filtering :
    (∀ (rows : List IndRow) (d : ℤ) (r : IndRow),
      fetch_indicators rows d = some r → r.is_final = true) ∧
    (∀ (rows : List IndRow) (f : IndRow → Bool) (d : ℤ),
      atrQuery (rows.map fun r => { r with is_final := f r }) d = atrQuery rows d) := by
  constructor
  · intro rows d r h
    unfold fetch_indicators at h
    cases hs : (rows.filter fun r => decide (r.date ≤ d) && r.is_final).insertionSort
        dateDesc with
    | nil => rw [hs] at h; exact absurd h (by simp)
    | cons x xs =>
      rw [hs] at h
      have hx : x = r := by simpa using h
      subst hx
      have hperm := List.perm_insertionSort dateDesc
        (rows.filter fun r => decide (r.date ≤ d) && r.is_final)
      have hmem : x ∈ rows.filter fun r => decide (r.date ≤ d) && r.is_final := by
        refine hperm.mem_iff.mp ?_
        rw [hs]
        exact List.mem_cons_self x xs
      have h2 := (List.mem_filter.mp hmem).2
      simp only [Bool.and_eq_true] at h2
      exact h2.2
  · intro rows f d
    have hcomm : ((rows.map fun r => { r with is_final := f r }).filter
        fun r => decide (r.date = d)) =
        (rows.filter fun r => decide (r.date = d)).map fun r => { r with is_final := f r } := by
      induction rows with
      | nil => rfl
      | cons r rs ih =>
        by_cases hd : r.date = d
        · simp [List.filter, hd, ih]
        · simp [List.filter, hd, ih]
    unfold atrQuery
    rw [hcomm]
    cases rows.filter fun r => decide (r.date = d) with
    | nil => rfl
    | cons x xs => rfl

theorem indicator_final_filtering_witness :
    (⟨3, some 2, none, none, none, none, none, true⟩ : IndRow).is_final = true :=
  indicator_final_filtering.1 [⟨3, some 2, none, none, none, none, none, true⟩] 5
    ⟨3, some 2, none, none, none, none, none, true⟩ (by decide)

/-- Counterexample price data: one bar, entered on day 1. -/
def P9 : List PriceBar := [⟨1, 100, 100, 100⟩]

/-- Counterexample indicator data: the only ATR row on the entry date is
not final (`is_final = false`). -/
def I9 : List IndRow := [⟨1, some 5, none, none, none, none, none, false⟩]

/-- C9 counterexample: the ATR(14) fetch of `backtest_scanner` consumes a
row with `is_final = false` — the produced trade's ATR is that row's
value, and restricting the indicator table to final rows would instead
skip the signal entirely. -/
theorem nonfinal_atr_influences_trade_counterexample :
    (simulateSignal P9 I9 0).map Trade.atr = some 5 ∧
    I9.filter (fun r => r.is_final) = [] ∧
    simulateSignal P9 (I9.filter fun r => r.is_final) 0 = none := by decide

/-! ### C5: cohort capital chaining -/

/-- Each produced cohort satisfies `capital_after = capital_before + pnl`. -/
theorem allocGo_after (db : DB) (l : List (ℤ × List Sig)) (cap : ℚ) :
    ∀ c ∈ allocGo db cap l, c.capital_after = c.capital_before + c.pnl := by
  induction l generalizing cap with
  | nil => intro c hc; exact absurd hc (List.not_mem_nil c)
  | cons x rest ih =>
    intro c hc
    obtain ⟨w, sigs⟩ := x
    rcases List.mem_cons.mp hc with h | h
    · rw [h]
    · exact ih _ c h

/-- The first produced cohort starts from the running capital. -/
theorem allocGo_head (db : DB) (l : List (ℤ × List Sig)) (cap : ℚ) (c : WeeklyCohort)
    (h : (allocGo db cap l).head? = some c) : c.capital_before = cap := by
  cases l with
  | nil => exact absurd h (by simp [allocGo])
  | cons x rest =>
    obtain ⟨w, sigs⟩ := x
    simp only [allocGo, List.head?_cons] at h
    cases h
    rfl

/-- Consecutive produced cohorts chain their capital. -/
theorem allocGo_chain (db : DB) (l : List (ℤ × List Sig)) (cap : ℚ) :
    List.Chain' (fun a b => b.capital_before = a.capital_after) (allocGo db cap l) := by
  induction l generalizing cap with
  | nil => exact List.chain'_nil
  | cons x rest ih =>
    obtain ⟨w, sigs⟩ := x
    refine List.chain'_cons'.mpr ⟨?_, ih _⟩
    intro c hc
    exact allocGo_head db rest _ c (Option.mem_def.mp hc)

/-- Every produced cohort's week comes from the processed input list. -/
theorem allocGo_mem_week (db : DB) (l : List (ℤ × List Sig)) (cap : ℚ) (c : WeeklyCohort)
    (hc : c ∈ allocGo db cap l) : ∃ x ∈ l, c.week_start = x.1 := by
  induction l generalizing cap with
  | nil => exact absurd hc (List.not_mem_nil c)
  | cons x rest ih =>
    obtain ⟨w, sigs⟩ := x
    rcases List.mem_cons.mp hc with h | h
    · exact ⟨(w, sigs), List.mem_cons_self _ _, by rw [h]⟩
    · obtain ⟨y, hy, hcy⟩ := ih _ h
      exact ⟨y, List.mem_cons_of_mem _ hy, hcy⟩

/-- The fold preserves the ascending week order of its input. -/
theorem allocGo_sorted (db : DB) (l : List (ℤ × List Sig)) (cap : ℚ)
    (h : List.Pairwise weekAsc l) :
    List.Pairwise (fun a b => a.week_start ≤ b.week_start) (allocGo db cap l) := by
  induction l generalizing cap with
  | nil => exact List.Pairwise.nil
  | cons x rest ih =>
    obtain ⟨w, sigs⟩ := x
    obtain ⟨hhead, htail⟩ := List.pairwise_cons.mp h
    refine List.Pairwise.cons ?_ (ih _ htail)
    intro c hc
    obtain ⟨y, hy, hcy⟩ := allocGo_mem_week db rest _ c hc
    rw [hcy]
    exact hhead y hy

/-- C5: cohorts are processed in ascending `week_start` order; every
processed cohort has `capital_after = capital_before + pnl`; consecutive
processed cohorts chain (`c_{i+1}.capital_before = c_i.capital_after`);
and the cohort of the maximum observed week never enters the chain. -/
theorem cohort_capital_chaining (db : DB) (weeks : List (ℤ × List Sig)) (cap : ℚ) :
    List.Chain' (fun a b => b.capital_before = a.capital_after) (allocate db weeks cap) ∧
    (∀ c ∈ allocate db weeks cap, c.capital_after = c.capital_before + c.pnl) ∧
    List.Pairwise (fun a b => a.week_start ≤ b.week_start) (allocate db weeks cap) ∧
    ∀ m, listMaxInt (weeks.map Prod.fst) = some m →
      ∀ c ∈ allocate db weeks cap, c.week_start ≠ m := by
  unfold allocate
  cases hm : listMaxInt (weeks.map Prod.fst) with
  | none => simp
  | some maxW =>
    refine ⟨allocGo_chain db _ cap, allocGo_after db _ cap, ?_, ?_⟩
    · exact allocGo_sorted db _ cap
        (((List.sorted_insertionSort weekAsc weeks).filter _))
    · intro m hm' c hc
      have hmw : m = maxW := by
        injection hm' with h
        exact h.symm
      subst hmw
      obtain ⟨x, hx, hcx⟩ := allocGo_mem_week db _ cap c hc
      have hxf := (List.mem_filter.mp hx).2
      rw [hcx]
      simpa using hxf

/-- Witness weeks for the allocator: the trailing (maximum) week 14 must
be excluded, weeks 0 and 7 are compounded. -/
def W5 : List (ℤ × List Sig) := [(14, []), (0, [Sw]), (7, [])]

theorem cohort_capital_chaining_witness :
    List.Chain' (fun a b => b.capital_before = a.capital_after) (allocate DBw W5 100) :=
  (cohort_capital_chaining DBw W5 100).1

/-! ### C10: compute_sma_support frame effect -/

/-- Upserting a column makes it retrievable under its name. -/
theorem lookupCol_upsert {α : Type} (cols : List (String × α)) (name : String) (v : α) :
    lookupCol (upsert cols name v) name = some v := by
  induction cols with
  | nil => simp [upsert, lookupCol]
  | cons kv rest ih =>
    obtain ⟨k, w⟩ := kv
    by_cases hk : k = name
    · simp [upsert, lookupCol, hk]
    · simp [upsert, lookupCol, hk, ih]

/-- Upserting one column leaves every other column unchanged. -/
theorem lookupCol_upsert_ne {α : Type} (cols : List (String × α)) (name name' : String)
    (v : α) (h : name' ≠ name) :
    lookupCol (upsert cols name v) name' = lookupCol cols name' := by
  induction cols with
  | nil => simp [upsert, lookupCol, Ne.symm h]
  | cons kv rest ih =>
    obtain ⟨k, w⟩ := kv
    by_cases hk : k = name
    · subst hk
      simp [upsert, lookupCol, Ne.symm h]
    · simp [upsert, lookupCol, hk, ih]

/-- The SMA loop never touches the `close` or `date` columns. -/
theorem smaFold_close_date (tol : ℚ) (l : List ℕ) (acc : DataFrame × List (String × ℕ)) :
    (l.foldl (smaStep tol) acc).1.close = acc.1.close ∧
    (l.foldl (smaStep tol) acc).1.date = acc.1.date := by
  induction l generalizing acc with
  | nil => exact ⟨rfl, rfl⟩
  | cons p rest ih => exact ⟨(ih _).1.trans rfl, (ih _).2.trans rfl⟩

/-- A column whose name no later period claims survives the rest of the
loop unchanged. -/
theorem smaFold_preserve (tol : ℚ) (l : List ℕ) (acc : DataFrame × List (String × ℕ))
    (name : String) (v : List (Option ℚ)) (hv : lookupCol acc.1.cols name = some v)
    (hne : ∀ r ∈ l, smaColName r ≠ name) :
    lookupCol (l.foldl (smaStep tol) acc).1.cols name = some v := by
  induction l generalizing acc with
  | nil => exact hv
  | cons p rest ih =>
    refine ih (smaStep tol acc p) ?_ (fun r hr => hne r (List.mem_cons_of_mem _ hr))
    rw [show (smaStep tol acc p).1.cols =
      upsert acc.1.cols (smaColName p) (rollingMean p acc.1.close) from rfl]
    rw [lookupCol_upsert_ne _ _ _ _ (Ne.symm (hne p (List.mem_cons_self p rest)))]
    exact hv

/-- After the loop, each requested period's column holds the rolling mean
of the (unchanged) close series. -/
theorem smaFold_lookup (tol : ℚ) (l : List ℕ) (acc : DataFrame × List (String × ℕ))
    (p : ℕ) (hp : p ∈ l) (hinj : ∀ q ∈ l, smaColName p = smaColName q → p = q) :
    lookupCol (l.foldl (smaStep tol) acc).1.cols (smaColName p) =
      some (rollingMean p acc.1.close) := by
  induction l generalizing acc with
  | nil => exact absurd hp (List.not_mem_nil p)
  | cons q rest ih =>
    by_cases hpr : p ∈ rest
    · exact ih (smaStep tol acc q) hpr (fun r hr h => hinj r (List.mem_cons_of_mem _ hr) h)
    · have hpq : p = q := by
        rcases List.mem_cons.mp hp with h | h
        · exact h
        · exact absurd h hpr
      subst hpq
      refine smaFold_preserve tol rest (smaStep tol acc p) (smaColName p) _ ?_ ?_
      · exact lookupCol_upsert acc.1.cols (smaColName p) _
      · intro r hr heq
        have h := hinj r (List.mem_cons_of_mem _ hr) heq.symm
        subst h
        exact absurd hr hpr

/-- C10: `compute_sma_support` mutates the caller's frame in place —
after the call, the frame holds a (new or overwritten) column
`SMA_{period}` with that period's rolling mean for every requested
period, while the pre-existing `close` and `date` columns and the row
count are unchanged.  (The hypothesis records that distinct requested
periods have distinct column names, which `f'SMA_{period}'` guarantees.) -/
theorem compute_sma_support_frame_effect (df : DataFrame) (sma_periods : List ℕ)
    (tol : ℚ)
    (hinj : ∀ p ∈ sma_periods, ∀ q ∈ sma_periods, smaColName p = smaColName q → p = q) :
    (compute_sma_support df sma_periods tol).1.close = df.close ∧
    (compute_sma_support df sma_periods tol).1.date = df.date ∧
    (compute_sma_support df sma_periods tol).1.close.length = df.close.length ∧
    ∀ p ∈ sma_periods,
      lookupCol (compute_sma_support df sma_periods tol).1.cols (smaColName p) =
        some (rollingMean p df.close) := by
  refine ⟨(smaFold_close_date tol sma_periods (df, [])).1,
    (smaFold_close_date tol sma_periods (df, [])).2,
    congrArg List.length (smaFold_close_date tol sma_periods (df, [])).1, ?_⟩
  intro p hp
  exact smaFold_lookup tol sma_periods (df, []) p hp (fun q hq => hinj p hp q hq)

/-- Witness frame: three rows, no extra columns. -/
def DFw : DataFrame := ⟨[1, 2, 3], [10, 10, 11], []⟩

theorem compute_sma_support_frame_effect_witness :
    (compute_sma_support DFw [2] (1/100)).1.close = DFw.close ∧
    (compute_sma_support DFw [2] (1/100)).1.date = DFw.date ∧
    (compute_sma_support DFw [2] (1/100)).1.close.length = DFw.close.length ∧
    ∀ p ∈ [2],
      lookupCol (compute_sma_support DFw [2] (1/100)).1.cols (smaColName p) =
        some (rollingMean p DFw.close) :=
  compute_sma_support_frame_effect DFw [2] (1/100) (by decide)
